import Mathlib

/-!
Verification development for the `TracerCatalog` survey-geometry pipeline
(`nbodykit/plugins/datasource/TracerCatalog.py`).

The Python source is shallowly embedded below.  Floating-point arrays are
modelled as lists of real numbers; the cosmology's `comoving_distance` is an
abstract function `dist : ℝ → ℝ` (an external capability per the spec); the
scipy `InterpolatedUnivariateSpline` constructor is modelled by the list of
interpolation knots it is handed (the spline interpolates through its knots;
the interpolant itself is external to this repository).  MPI is degenerate
here: the embedding follows the rank-0 (coordinator) computation, which is
what every collective broadcast makes authoritative for all ranks.
-/

namespace TracerCatalog

/-- One row of a `RaDecRedshift` catalog: the source stores `(ra, dec, z)`
with the redshift in the third slot (`coords[:,-1]`). -/
structure Coord where
  ra : ℝ
  dec : ℝ
  redshift : ℝ

/-- A Cartesian triple, one row of the arrays produced by `_to_cartesian`. -/
structure Vec3 where
  x : ℝ
  y : ℝ
  z : ℝ

/-- Componentwise negation, for the `translate=-self.offset` call in `read`. -/
def vneg (v : Vec3) : Vec3 := ⟨-v.x, -v.y, -v.z⟩

/-- Componentwise minimum, embedding `numpy.minimum` on length-3 arrays. -/
noncomputable def vmin (a b : Vec3) : Vec3 := ⟨min a.x b.x, min a.y b.y, min a.z b.z⟩

/-- Componentwise maximum, embedding `numpy.maximum` on length-3 arrays. -/
noncomputable def vmax (a b : Vec3) : Vec3 := ⟨max a.x b.x, max a.y b.y, max a.z b.z⟩

/-- Embedding of `TracerCatalogDataSource._to_cartesian`:

    ra, dec, redshift = coords.T
    r = self.cosmo.comoving_distance(redshift)
    x = r*numpy.cos(ra)*numpy.cos(dec)
    y = r*numpy.sin(ra)*numpy.cos(dec)
    z = r*numpy.sin(dec)
    return numpy.vstack([x,y,z]).T + translate

`dist` stands for `self.cosmo.comoving_distance`; the default Python argument
`translate=[0.,0.,0.]` is passed explicitly by callers below. -/
noncomputable def to_cartesian (dist : ℝ → ℝ) (coords : List Coord)
    (translate : Vec3) : List Vec3 :=
  coords.map fun c =>
    let r := dist c.redshift
    ⟨r * Real.cos c.ra * Real.cos c.dec + translate.x,
     r * Real.sin c.ra * Real.cos c.dec + translate.y,
     r * Real.sin c.dec + translate.z⟩

/-- The configuration surface of `TracerCatalogDataSource` (the named
parameters the registration mechanism populates as instance attributes),
plus the cosmology handle.  `nbar`, when supplied, is a density curve; it is
modelled by its interpolation knots `(z, nbar)`. -/
structure Config where
  cosmo : Option (ℝ → ℝ)
  BoxSize : Option Vec3
  BoxPad : ℝ
  compute_fkp_weights : Bool
  P0_fkp : Option ℝ
  nbar : Option (List (ℝ × ℝ))
  fsky : Option ℝ

/-- numpy `astype(int)` on a scalar: truncation toward zero.  The operand in
`_define_box` is `|max-min|*(1+BoxPad)`, nonnegative for `BoxPad ≥ -1`, where
truncation agrees with the floor. -/
noncomputable def pyTrunc (x : ℝ) : ℤ :=
  if 0 ≤ x then ⌊x⌋ else -⌊-x⌋

/-- Result of `_define_box`: the coordinate offset, the box size, and the
list of axes for which a non-fatal too-small-box warning was logged. -/
structure BoxResult where
  offset : Vec3
  boxSize : Vec3
  warned : List Nat

/-- Embedding of `TracerCatalogDataSource._define_box`:

    delta = abs(coords_max - coords_min)
    self.offset = 0.5 * (coords_min + coords_max)
    if self.BoxSize is None:
        delta *= 1.0 + self.BoxPad
        self.BoxSize = delta.astype(int)
    else:
        for i, L in enumerate(delta):
            if self.BoxSize[i] < L: logger.warning(...)

The warning branch records the offending axes instead of logging. -/
noncomputable def define_box (cfg : Config) (cmin cmax : Vec3) : BoxResult :=
  let delta : Vec3 := ⟨|cmax.x - cmin.x|, |cmax.y - cmin.y|, |cmax.z - cmin.z|⟩
  let offset : Vec3 := ⟨0.5 * (cmin.x + cmax.x), 0.5 * (cmin.y + cmax.y),
                        0.5 * (cmin.z + cmax.z)⟩
  match cfg.BoxSize with
  | none =>
      let pad := 1.0 + cfg.BoxPad
      ⟨offset,
       ⟨(pyTrunc (delta.x * pad) : ℤ), (pyTrunc (delta.y * pad) : ℤ),
        (pyTrunc (delta.z * pad) : ℤ)⟩,
       []⟩
  | some bs =>
      ⟨offset, bs,
       (if bs.x < delta.x then [0] else []) ++
       (if bs.y < delta.y then [1] else []) ++
       (if bs.z < delta.z then [2] else [])⟩

/-- Error conditions raised by the pipeline.  Constructors that in the source
carry a message naming the valid alternatives carry that list here;
`valueError`/`nameError` model the Python exceptions of `nbar_fromfile`. -/
inductive TracerErr where
  | cosmoMissing
  | fskyMissing
  | p0Missing
  | sourceNotSet (valid : List String)
  | invalidColumns (valid : List String)
  | invalidSource (valid : List String)
  | valueError (msg : String)
  | nameError (name : String)
  deriving DecidableEq

/-- The names bound at module level of `TracerCatalog.py` that the body of
`nbar_fromfile` could resolve a global reference against: note the scipy
spline class is imported under the name `spline`
(`from scipy.interpolate import InterpolatedUnivariateSpline as spline`),
so the name `InterpolatedUnivariateSpline` itself is never bound. -/
def moduleNames : List String :=
  ["DataSource", "MPI", "numpy", "logging", "spline", "logger",
   "nbar_fromfile", "TracerCatalogDataSource", "os"]

/-- Embedding of the module-level `nbar_fromfile(filename)`.  `fs` models the
filesystem: the parsed two-column `(z, nbar)` content of each existing path.
The missing-file branch raises `ValueError` with the source's literal format
string (the `% filename` substitution is absent in the source, so the
placeholder survives verbatim); the success branch resolves the global name
`InterpolatedUnivariateSpline`, which is unbound, raising `NameError`. -/
def nbar_fromfile (fs : String → Option (List (ℝ × ℝ))) (filename : String) :
    Except TracerErr (List (ℝ × ℝ)) :=
  match fs filename with
  | none => .error (.valueError "\x27%s\x27 file for reading nbar does not exist")
  | some d =>
    if moduleNames.contains "InterpolatedUnivariateSpline" then .ok d
    else .error (.nameError "InterpolatedUnivariateSpline")

/-- The two upstream catalogs `set_source` can select between. -/
inductive Source where
  | data
  | randoms
  deriving DecidableEq

/-- The per-process state the read pipeline consumes: the active-source
selector `self._source` (`none` until `set_source` is called), the broadcast
`self.offset`, the broadcast nbar spline as an evaluable curve `self.nbar`,
and the FKP configuration. -/
structure ReadState where
  source : Option Source
  offset : Vec3
  nbar : ℝ → ℝ
  compute_fkp_weights : Bool
  P0_fkp : Option ℝ

/-- The `valid` list of `read`: `['Position', 'Weight', 'Nbar']`. -/
def validColumns : List String := ["Position", "Weight", "Nbar"]

/-- One column of a yielded chunk, tagged with which field it came from. -/
inductive Column where
  | position (rows : List Vec3)
  | weight (rows : List ℝ)
  | nbar (rows : List ℝ)

/-- The dict `P` assembled per chunk on rank 0 inside `read`. -/
structure OutChunk where
  position : List Vec3
  weight : List ℝ
  nbar : List ℝ

/-- Embedding of `TracerCatalogDataSource.set_source`: `'data'` and
`'randoms'` select the corresponding catalog from any prior state; any other
argument raises (`NotImplementedError` naming the two valid choices), and
since the assignment only happens on the two valid branches, the selector is
left unchanged on failure (the `Except` error carries no new state). -/
def set_source (_src : Option Source) (which : String) :
    Except TracerErr (Option Source) :=
  if which = "data" then .ok (some .data)
  else if which = "randoms" then .ok (some .randoms)
  else .error (.invalidSource ["data", "randoms"])

/-- The rank-0 body of the `read` loop for one chunk `[coords, weight]`
pulled from the active source:

    pos = self._to_cartesian(coords, translate=-self.offset)
    nbar = self.nbar(coords[:,-1])
    if self.compute_fkp_weights:
        if self.P0_fkp is None: raise ValueError(...)
        weight = 1. / (1. + nbar*self.P0_fkp)

`dist` stands for `self.cosmo.comoving_distance`. -/
noncomputable def readChunk (dist : ℝ → ℝ) (st : ReadState)
    (chunk : List Coord × List ℝ) : Except TracerErr OutChunk :=
  let pos := to_cartesian dist chunk.1 (vneg st.offset)
  let nbarvals := chunk.1.map fun c => st.nbar c.redshift
  if st.compute_fkp_weights then
    match st.P0_fkp with
    | none => .error .p0Missing
    | some p0 => .ok ⟨pos, nbarvals.map fun nb => 1 / (1 + nb * p0), nbarvals⟩
  else .ok ⟨pos, chunk.2, nbarvals⟩

/-- The chunk loop of `read`: process chunks in order, stopping at the first
raised exception (the Python generator raises on that iteration). -/
noncomputable def readChunks (dist : ℝ → ℝ) (st : ReadState) :
    List (List Coord × List ℝ) → Except TracerErr (List OutChunk)
  | [] => .ok []
  | chunk :: rest =>
    match readChunk dist st chunk with
    | .error e => .error e
    | .ok P =>
      match readChunks dist st rest with
      | .error e => .error e
      | .ok Ps => .ok (P :: Ps)

/-- The yielded column selection `data = [P[key] for key in columns]`
(only reached with `columns ⊆ validColumns`). -/
def selectColumns (P : OutChunk) (columns : List String) : List Column :=
  columns.map fun key =>
    if key = "Position" then .position P.position
    else if key = "Weight" then .weight P.weight
    else .nbar P.nbar

/-- Embedding of `TracerCatalogDataSource.read` (rank-0 view): require an
active source, validate the requested columns against
`['Position', 'Weight', 'Nbar']`, then stream the source's
`[Position, Weight]` chunks through the per-chunk computation and yield the
selected columns.  `chunks` is what the active source's own `read` yields. -/
noncomputable def read (dist : ℝ → ℝ) (st : ReadState) (columns : List String)
    (chunks : List (List Coord × List ℝ)) :
    Except TracerErr (List (List Column)) :=
  match st.source with
  | none => .error (.sourceNotSet ["data", "randoms"])
  | some _ =>
    if columns.any fun col => !(validColumns.contains col) then
      .error (.invalidColumns validColumns)
    else
      match readChunks dist st chunks with
      | .error e => .error e
      | .ok Ps => .ok (Ps.map fun P => selectColumns P columns)

/-- `data.min()` of a numpy array, on the nonempty lists the source feeds it
(the `[]` default is junk, never reached by the callers below). -/
noncomputable def listMin : List ℝ → ℝ
  | [] => 0
  | x :: xs => xs.foldl min x

/-- `data.max()` of a numpy array, on the nonempty lists the source feeds it. -/
noncomputable def listMax : List ℝ → ℝ
  | [] => 0
  | x :: xs => xs.foldl max x

/-- `numpy.std(data)`: population standard deviation (`ddof = 0`),
the square root of the mean squared deviation from the mean
`data.sum / data.length`. -/
noncomputable def npStd (data : List ℝ) : ℝ :=
  Real.sqrt ((data.map fun x => (x - data.sum / data.length) ^ 2).sum /
    data.length)

/-- The Scott-rule bin width of `scotts_bin_width` inside `_set_nbar`:
`dx = 3.5 * sigma * 1. / (n ** (1./3))`. -/
noncomputable def scottsDx (data : List ℝ) : ℝ :=
  3.5 * npStd data / (data.length : ℝ) ^ ((1 : ℝ) / 3)

/-- The bin count of `scotts_bin_width`:
`Nbins = max(1, numpy.ceil((data.max() - data.min()) / dx))`. -/
noncomputable def scottsNbins (data : List ℝ) : ℤ :=
  max 1 ⌈(listMax data - listMin data) / scottsDx data⌉

/-- The bin edges of `scotts_bin_width`:
`bins = data.min() + dx * numpy.arange(Nbins + 1)`. -/
noncomputable def scottsBins (data : List ℝ) : List ℝ :=
  (List.range ((scottsNbins data).toNat + 1)).map fun i : ℕ =>
    listMin data + scottsDx data * (i : ℝ)

/-- `numpy.searchsorted(edges, z, "right")` on a sorted `edges` array:
the number of edges `≤ z`, i.e. the insertion index keeping equal elements to
the left. -/
noncomputable def searchsortedRight (edges : List ℝ) (z : ℝ) : ℕ :=
  edges.countP fun b => decide (b ≤ z)

/-- Embedding of `TracerCatalogDataSource._set_nbar`.  Returns the knots
`(z_cen, alpha*N/volume)` handed to the `InterpolatedUnivariateSpline`
constructor (the spline interpolates through these points; the interpolant
itself is scipy's, external to this repository).  The digitize/bincount pair

    dig = numpy.searchsorted(zbins, redshift, "right")
    N = numpy.bincount(dig, minlength=len(zbins)+1)[1:-1]

discards bucket `0` (below the first edge) and bucket `Nbins+1` (above the
last edge), leaving the count with `dig = j+1` as interior bin `j`.
`dist` stands for `self.cosmo.comoving_distance`. -/
noncomputable def set_nbar (cfg : Config) (dist : ℝ → ℝ) (redshift : List ℝ)
    (alpha : ℝ) : Except TracerErr (List (ℝ × ℝ)) :=
  match cfg.nbar with
  | some curve => .ok curve
  | none =>
    match cfg.fsky with
    | none => .error .fskyMissing
    | some fsky =>
      let zbins := scottsBins redshift
      let nb := (scottsNbins redshift).toNat
      .ok ((List.range nb).map fun j =>
        let zlo := zbins.getD j 0
        let zhi := zbins.getD (j + 1) 0
        let count := redshift.countP fun z =>
          decide (searchsortedRight zbins z = j + 1)
        let volume := 4 / 3 * Real.pi * (dist zhi ^ 3 - dist zlo ^ 3) * fsky
        (0.5 * (zlo + zhi), alpha * count / volume))

/-- The global state `__init__` computes on rank 0 and broadcasts:
the box geometry (absent when the data source yielded no rows at all, where
the source's `±inf` accumulators make the result meaningless) and the nbar
spline knots. -/
structure InitGeometry where
  box : Option BoxResult
  nbarKnots : List (ℝ × ℝ)

/-- Embedding of `TracerCatalogDataSource.__init__` (single-rank view: the
gather/broadcast of a one-process communicator is the identity, and rank 0
is the coordinator).  `chunks` is the sequence of `Position` chunks the
`data` source yields.  The first component counts the chunks read before the
call returns or raises, so that where in the protocol a failure occurs is
observable: `0` means no read was attempted. -/
noncomputable def tracerInit (cfg : Config) (chunks : List (List Coord)) :
    Nat × Except TracerErr InitGeometry :=
  match cfg.cosmo with
  | none => (0, .error .cosmoMissing)
  | some dist =>
    let step := fun (acc : Option (Vec3 × Vec3) × List ℝ) (chunk : List Coord) =>
      if chunk.isEmpty then acc
      else
        match to_cartesian dist chunk ⟨0, 0, 0⟩ with
        | [] => acc
        | v :: vs =>
          let cmin := vs.foldl vmin v
          let cmax := vs.foldl vmax v
          let mm := match acc.1 with
            | none => some (cmin, cmax)
            | some (m, M) => some (vmin m cmin, vmax M cmax)
          (mm, acc.2 ++ chunk.map (·.redshift))
    let res := chunks.foldl step (none, [])
    let geom : Option BoxResult := res.1.map fun mm => define_box cfg mm.1 mm.2
    (chunks.length,
      match set_nbar cfg dist res.2 1.0 with
      | .error e => .error e
      | .ok knots => .ok ⟨geom, knots⟩)

end TracerCatalog

namespace TracerCatalog

/-- Claim C1 — `_to_cartesian` maps each row `(ra, dec, z)` to
`r = dist(z)`, `x = r·cos(ra)·cos(dec)`, `y = r·sin(ra)·cos(dec)`,
`z = r·sin(dec)` plus the translate vector, and before translation every
output point satisfies `x² + y² + z² = r²`. -/
theorem C1_to_cartesian_rows (dist : ℝ → ℝ) (coords : List Coord)
    (translate : Vec3) (i : ℕ) (c : Coord) (hc : coords[i]? = some c) :
    (to_cartesian dist coords translate)[i]? =
      some ⟨dist c.redshift * Real.cos c.ra * Real.cos c.dec + translate.x,
            dist c.redshift * Real.sin c.ra * Real.cos c.dec + translate.y,
            dist c.redshift * Real.sin c.dec + translate.z⟩ ∧
    (dist c.redshift * Real.cos c.ra * Real.cos c.dec) ^ 2 +
      (dist c.redshift * Real.sin c.ra * Real.cos c.dec) ^ 2 +
      (dist c.redshift * Real.sin c.dec) ^ 2 = dist c.redshift ^ 2 := by
  constructor
  · simp [to_cartesian, List.getElem?_map, hc]
  · have hra := Real.sin_sq_add_cos_sq c.ra
    have hdec := Real.sin_sq_add_cos_sq c.dec
    linear_combination (dist c.redshift ^ 2 * Real.cos c.dec ^ 2) * hra +
      dist c.redshift ^ 2 * hdec

/-- Witness for C1: a concrete one-row catalog at `(ra, dec, z) = (0, 0, 1)`
with `dist = id` and translate `(1, 2, 3)`. -/
theorem C1_to_cartesian_rows_witness :
    (([⟨0, 0, 1⟩] : List Coord)[0]? = some (⟨0, 0, 1⟩ : Coord)) ∧
    ((to_cartesian (fun z => z) [⟨0, 0, 1⟩] ⟨1, 2, 3⟩)[0]? =
      some ⟨(1 : ℝ) * Real.cos 0 * Real.cos 0 + 1,
            (1 : ℝ) * Real.sin 0 * Real.cos 0 + 2,
            (1 : ℝ) * Real.sin 0 + 3⟩ ∧
     ((1 : ℝ) * Real.cos 0 * Real.cos 0) ^ 2 +
       ((1 : ℝ) * Real.sin 0 * Real.cos 0) ^ 2 +
       ((1 : ℝ) * Real.sin 0) ^ 2 = (1 : ℝ) ^ 2) :=
  ⟨rfl, C1_to_cartesian_rows (fun z => z) [⟨0, 0, 1⟩] ⟨1, 2, 3⟩ 0 ⟨0, 0, 1⟩ rfl⟩

/-- Counterexample to claim C2 as stated: with `BoxSize` omitted, corners
`min = 0`, `max = 10.5` per axis and the default `BoxPad = 0.02`, the
auto-computed `BoxSize` axis is `int(10.5 * 1.02) = int(10.71) = 10`, which
is strictly smaller than `|max - min| = 10.5` — the floor-to-int can undo
the padding, so the claimed per-axis `BoxSize ≥ |max-min|` fails. -/
theorem C2_counterexample :
    (define_box ⟨none, none, 0.02, false, none, none, none⟩
        ⟨0, 0, 0⟩ ⟨10.5, 10.5, 10.5⟩).boxSize.x = ((10 : ℤ) : ℝ) ∧
    ¬ (|(10.5 : ℝ) - 0| ≤
        (define_box ⟨none, none, 0.02, false, none, none, none⟩
          ⟨0, 0, 0⟩ ⟨10.5, 10.5, 10.5⟩).boxSize.x) := by
  have habs : |(10.5 : ℝ) - 0| = 10.5 := by norm_num
  have harg : |(10.5 : ℝ) - 0| * (1.0 + 0.02) = 10.71 := by rw [habs]; norm_num
  have hfloor : ⌊(10.71 : ℝ)⌋ = 10 := by norm_num [Int.floor_eq_iff]
  have hx : (define_box ⟨none, none, 0.02, false, none, none, none⟩
      ⟨0, 0, 0⟩ ⟨10.5, 10.5, 10.5⟩).boxSize.x = ((10 : ℤ) : ℝ) := by
    simp only [define_box, pyTrunc, harg]
    rw [if_pos (by norm_num)]
    rw [hfloor]
  refine ⟨hx, ?_⟩
  rw [hx, habs]
  norm_num

/-- Claim C2 (amended) — with the user `BoxSize` omitted and a nonnegative
pad, `_define_box` sets `Offset` exactly to `0.5*(min+max)`, and each axis of
the auto-computed `BoxSize` is the floor-to-int of `|max-min|*(1+pad)`;
consequently each axis exceeds `|max-min|*(1+pad) - 1` (the floor-to-int may
drop below `|max-min|` itself, as the counterexample shows). -/
theorem C2_define_box_auto (cfg : Config) (cmin cmax : Vec3)
    (hbs : cfg.BoxSize = none) (hpad : 0 ≤ cfg.BoxPad) :
    (define_box cfg cmin cmax).offset =
      ⟨0.5 * (cmin.x + cmax.x), 0.5 * (cmin.y + cmax.y),
       0.5 * (cmin.z + cmax.z)⟩ ∧
    (define_box cfg cmin cmax).boxSize =
      ⟨((⌊|cmax.x - cmin.x| * (1.0 + cfg.BoxPad)⌋ : ℤ) : ℝ),
       ((⌊|cmax.y - cmin.y| * (1.0 + cfg.BoxPad)⌋ : ℤ) : ℝ),
       ((⌊|cmax.z - cmin.z| * (1.0 + cfg.BoxPad)⌋ : ℤ) : ℝ)⟩ ∧
    |cmax.x - cmin.x| * (1.0 + cfg.BoxPad) - 1 <
      (define_box cfg cmin cmax).boxSize.x ∧
    |cmax.y - cmin.y| * (1.0 + cfg.BoxPad) - 1 <
      (define_box cfg cmin cmax).boxSize.y ∧
    |cmax.z - cmin.z| * (1.0 + cfg.BoxPad) - 1 <
      (define_box cfg cmin cmax).boxSize.z := by
  have hpad1 : (0 : ℝ) ≤ 1.0 + cfg.BoxPad := by linarith
  have htr : ∀ d : ℝ, 0 ≤ d → pyTrunc (d * (1.0 + cfg.BoxPad)) =
      ⌊d * (1.0 + cfg.BoxPad)⌋ := by
    intro d hd
    simp only [pyTrunc]
    rw [if_pos (mul_nonneg hd hpad1)]
  have hx := htr _ (abs_nonneg (cmax.x - cmin.x))
  have hy := htr _ (abs_nonneg (cmax.y - cmin.y))
  have hz := htr _ (abs_nonneg (cmax.z - cmin.z))
  simp only [define_box, hbs, hx, hy, hz]
  exact ⟨trivial, trivial, Int.sub_one_lt_floor _, Int.sub_one_lt_floor _,
    Int.sub_one_lt_floor _⟩

/-- Witness for C2 (amended): concrete corners `(0,0,0)`, `(1, 2.5, 3)`
with `BoxSize` omitted and the default pad `0.02`. -/
theorem C2_define_box_auto_witness :
    ((⟨none, none, 0.02, false, none, none, none⟩ : Config).BoxSize = none ∧
     (0 : ℝ) ≤ (⟨none, none, 0.02, false, none, none, none⟩ : Config).BoxPad) ∧
    ((define_box ⟨none, none, 0.02, false, none, none, none⟩
        ⟨0, 0, 0⟩ ⟨1, 2.5, 3⟩).offset =
      ⟨0.5 * (0 + 1), 0.5 * (0 + 2.5), 0.5 * (0 + 3)⟩ ∧
     (define_box ⟨none, none, 0.02, false, none, none, none⟩
        ⟨0, 0, 0⟩ ⟨1, 2.5, 3⟩).boxSize =
      ⟨((⌊|(1 : ℝ) - 0| * (1.0 + 0.02)⌋ : ℤ) : ℝ),
       ((⌊|(2.5 : ℝ) - 0| * (1.0 + 0.02)⌋ : ℤ) : ℝ),
       ((⌊|(3 : ℝ) - 0| * (1.0 + 0.02)⌋ : ℤ) : ℝ)⟩ ∧
     |(1 : ℝ) - 0| * (1.0 + 0.02) - 1 <
       (define_box ⟨none, none, 0.02, false, none, none, none⟩
         ⟨0, 0, 0⟩ ⟨1, 2.5, 3⟩).boxSize.x ∧
     |(2.5 : ℝ) - 0| * (1.0 + 0.02) - 1 <
       (define_box ⟨none, none, 0.02, false, none, none, none⟩
         ⟨0, 0, 0⟩ ⟨1, 2.5, 3⟩).boxSize.y ∧
     |(3 : ℝ) - 0| * (1.0 + 0.02) - 1 <
       (define_box ⟨none, none, 0.02, false, none, none, none⟩
         ⟨0, 0, 0⟩ ⟨1, 2.5, 3⟩).boxSize.z) :=
  ⟨⟨rfl, by norm_num⟩,
   C2_define_box_auto ⟨none, none, 0.02, false, none, none, none⟩
     ⟨0, 0, 0⟩ ⟨1, 2.5, 3⟩ rfl (by norm_num)⟩

/-- Counterexample to claim C3 as stated: with the cosmology present, no
precomputed nbar and `fsky` absent, construction over a one-chunk data
source does fail with the configuration error, but only after that chunk was
read (the read counter is `1`, not `0`): the `fsky` check lives in
`_set_nbar`, which runs after the whole read/gather pass. -/
theorem C3_counterexample :
    (tracerInit ⟨some (fun z => z), none, 0.02, false, none, none, none⟩
        [[⟨0, 0, 1⟩]]).1 = 1 ∧
    (tracerInit ⟨some (fun z => z), none, 0.02, false, none, none, none⟩
        [[⟨0, 0, 1⟩]]).2 = .error .fskyMissing :=
  ⟨rfl, rfl⟩

/-- Claim C3 (amended) — if no precomputed nbar curve is supplied and `fsky`
is absent (cosmology present), catalog construction fails with the
configuration error, but only at the density-estimation step after the full
read pass: every chunk of the data source is read (and its min/max and
redshift accumulation performed) before the failure surfaces. -/
theorem C3_fsky_error_after_read (dist : ℝ → ℝ) (bs : Option Vec3) (pad : ℝ)
    (w : Bool) (p0 : Option ℝ) (chunks : List (List Coord)) :
    tracerInit ⟨some dist, bs, pad, w, p0, none, none⟩ chunks =
      (chunks.length, .error .fskyMissing) := by
  simp [tracerInit, set_nbar]

/-- Claim C8 — when a density curve is already present in the configuration,
`_set_nbar` is a no-op: it returns the supplied curve unchanged for every
sample, every alpha and every cosmology, without consulting `fsky` (which may
even be absent) and without building any histogram; in particular re-running
the step can never rebuild the curve. -/
theorem C8_set_nbar_noop (cfg : Config) (curve : List (ℝ × ℝ))
    (h : cfg.nbar = some curve) (dist : ℝ → ℝ) (redshift : List ℝ)
    (alpha : ℝ) :
    set_nbar cfg dist redshift alpha = .ok curve := by
  simp [set_nbar, h]

/-- Witness for C8: a concrete configuration carrying a supplied curve and no
`fsky`; the step still succeeds and returns exactly the supplied curve. -/
theorem C8_set_nbar_noop_witness :
    (⟨none, none, 0.02, true, none, some [(0.5, 0.001)], none⟩ : Config).nbar =
      some [(0.5, 0.001)] ∧
    set_nbar ⟨none, none, 0.02, true, none, some [(0.5, 0.001)], none⟩
      (fun z => z) [9, 9, 9] 2 = .ok [(0.5, 0.001)] :=
  ⟨rfl, C8_set_nbar_noop _ [(0.5, 0.001)] rfl (fun z => z) [9, 9, 9] 2⟩

/-- Helper: with FKP weighting on and `P0_fkp` present, the chunk loop
succeeds on every chunk, producing projected positions, FKP weights and nbar
values. -/
theorem readChunks_fkp (dist : ℝ → ℝ) (st : ReadState) (p0 : ℝ)
    (hw : st.compute_fkp_weights = true) (hp : st.P0_fkp = some p0)
    (chunks : List (List Coord × List ℝ)) :
    readChunks dist st chunks = .ok (chunks.map fun chunk =>
      ⟨to_cartesian dist chunk.1 (vneg st.offset),
       (chunk.1.map fun c => st.nbar c.redshift).map fun nb => 1 / (1 + nb * p0),
       chunk.1.map fun c => st.nbar c.redshift⟩) := by
  induction chunks with
  | nil => simp [readChunks]
  | cons c t ih => simp [readChunks, readChunk, hw, hp, ih]

/-- Claim C5 — with an active source, FKP weighting enabled and `P0_fkp`
present, every yielded record's Weight is `1/(1 + nbar(z)*P0_fkp)` with nbar
evaluated from the broadcast curve at the record's redshift; with `P0_fkp`
absent and at least one chunk, the read pass fails with the configuration
error. -/
theorem C5_fkp_weights (dist : ℝ → ℝ) (st : ReadState) (s : Source) (p0 : ℝ)
    (hs : st.source = some s) (hw : st.compute_fkp_weights = true)
    (hp : st.P0_fkp = some p0) (chunks : List (List Coord × List ℝ))
    (hne : chunks ≠ []) :
    read dist st ["Position", "Weight", "Nbar"] chunks =
      .ok (chunks.map fun chunk =>
        [Column.position (to_cartesian dist chunk.1 (vneg st.offset)),
         Column.weight (chunk.1.map fun c => 1 / (1 + st.nbar c.redshift * p0)),
         Column.nbar (chunk.1.map fun c => st.nbar c.redshift)]) ∧
    read dist { st with P0_fkp := none } ["Position", "Weight", "Nbar"] chunks =
      .error .p0Missing := by
  constructor
  · simp only [read, hs]
    rw [if_neg (by decide)]
    rw [readChunks_fkp dist st p0 hw hp chunks]
    simp [selectColumns, List.map_map, Function.comp]
  · obtain ⟨c, t, rfl⟩ := List.exists_cons_of_ne_nil hne
    simp [read, readChunks, readChunk, hs, hw, validColumns]

/-- Witness for C5: one chunk of one record at redshift 1, flat curve
`nbar = 2`, `P0_fkp = 1000`, active source `data`. -/
theorem C5_fkp_weights_witness :
    ((⟨some .data, ⟨0, 0, 0⟩, fun _ => 2, true, some 1000⟩ : ReadState).source =
        some .data ∧
     (⟨some .data, ⟨0, 0, 0⟩, fun _ => 2, true, some 1000⟩ :
        ReadState).compute_fkp_weights = true ∧
     (⟨some .data, ⟨0, 0, 0⟩, fun _ => 2, true, some 1000⟩ :
        ReadState).P0_fkp = some 1000 ∧
     ([([⟨0, 0, 1⟩], [1])] : List (List Coord × List ℝ)) ≠ []) ∧
    (read (fun z => z)
        ⟨some .data, ⟨0, 0, 0⟩, fun _ => 2, true, some 1000⟩
        ["Position", "Weight", "Nbar"] [([⟨0, 0, 1⟩], [1])] =
      .ok (([([⟨0, 0, 1⟩], [1])] : List (List Coord × List ℝ)).map fun chunk =>
        [Column.position (to_cartesian (fun z => z) chunk.1 (vneg ⟨0, 0, 0⟩)),
         Column.weight (chunk.1.map fun _ => 1 / (1 + 2 * 1000)),
         Column.nbar (chunk.1.map fun _ => 2)]) ∧
     read (fun z => z)
        { (⟨some .data, ⟨0, 0, 0⟩, fun _ => 2, true, some 1000⟩ : ReadState)
          with P0_fkp := none }
        ["Position", "Weight", "Nbar"] [([⟨0, 0, 1⟩], [1])] =
      .error .p0Missing) :=
  ⟨⟨rfl, rfl, rfl, by simp⟩,
   C5_fkp_weights (fun z => z)
     ⟨some .data, ⟨0, 0, 0⟩, fun _ => 2, true, some 1000⟩ .data 1000
     rfl rfl rfl [([⟨0, 0, 1⟩], [1])] (by simp)⟩

/-- Claim C6 — with an active source, any requested column set containing a
name outside `{Position, Weight, Nbar}` makes `read` fail up front with the
invalid-argument error carrying the three valid names, and the outcome is
independent of whatever the active source holds (no chunk is consumed). -/
theorem C6_invalid_columns (dist : ℝ → ℝ) (st : ReadState) (s : Source)
    (hs : st.source = some s) (columns : List String) (c : String)
    (hc : c ∈ columns) (hv : c ∉ validColumns)
    (chunks chunks2 : List (List Coord × List ℝ)) :
    read dist st columns chunks =
      .error (.invalidColumns ["Position", "Weight", "Nbar"]) ∧
    read dist st columns chunks = read dist st columns chunks2 := by
  have hany : (columns.any fun col => !(validColumns.contains col)) = true := by
    rw [List.any_eq_true]
    exact ⟨c, hc, by simpa using hv⟩
  have h : ∀ ch : List (List Coord × List ℝ), read dist st columns ch =
      .error (.invalidColumns ["Position", "Weight", "Nbar"]) := by
    intro ch
    simp only [read, hs]
    rw [if_pos hany]
    rfl
  exact ⟨h chunks, (h chunks).trans (h chunks2).symm⟩

/-- Witness for C6: requesting the column `Velocity` with the `data` source
active fails identically for an empty and a nonempty upstream. -/
theorem C6_invalid_columns_witness :
    ((⟨some .data, ⟨0, 0, 0⟩, fun _ => 0, false, none⟩ : ReadState).source =
        some .data ∧
     "Velocity" ∈ ["Velocity"] ∧ "Velocity" ∉ validColumns) ∧
    (read (fun z => z) ⟨some .data, ⟨0, 0, 0⟩, fun _ => 0, false, none⟩
        ["Velocity"] [([⟨0, 0, 1⟩], [1])] =
      .error (.invalidColumns ["Position", "Weight", "Nbar"]) ∧
     read (fun z => z) ⟨some .data, ⟨0, 0, 0⟩, fun _ => 0, false, none⟩
        ["Velocity"] [([⟨0, 0, 1⟩], [1])] =
      read (fun z => z) ⟨some .data, ⟨0, 0, 0⟩, fun _ => 0, false, none⟩
        ["Velocity"] []) :=
  ⟨⟨rfl, by decide, by decide⟩,
   C6_invalid_columns (fun z => z)
     ⟨some .data, ⟨0, 0, 0⟩, fun _ => 0, false, none⟩ .data rfl
     ["Velocity"] "Velocity" (by decide) (by decide) [([⟨0, 0, 1⟩], [1])] []⟩

/-- Claim C7 — the active-source selector is a three-state machine: from any
prior state, `set_source` with `'data'` or `'randoms'` selects that source;
any other argument fails with the invalid-argument condition naming the two
valid choices (leaving the state unchanged, since the error carries no new
state); and `read` with the selector unset fails with the
precondition-violation condition naming the valid alternatives. -/
theorem C7_source_state_machine (s : Option Source) :
    set_source s "data" = .ok (some .data) ∧
    set_source s "randoms" = .ok (some .randoms) ∧
    (∀ w : String, w ≠ "data" → w ≠ "randoms" →
      set_source s w = .error (.invalidSource ["data", "randoms"])) ∧
    ∀ (dist : ℝ → ℝ) (st : ReadState) (columns : List String)
      (chunks : List (List Coord × List ℝ)), st.source = none →
      read dist st columns chunks = .error (.sourceNotSet ["data", "randoms"]) := by
  refine ⟨rfl, rfl, ?_, ?_⟩
  · intro w h1 h2
    simp [set_source, h1, h2]
  · intro dist st columns chunks h
    simp [read, h]

/-- Witness for C7: concrete transitions from both occupied states, a
rejected argument, and a `read` on the unset state. -/
theorem C7_source_state_machine_witness :
    set_source (some .randoms) "data" = .ok (some .data) ∧
    set_source none "randoms" = .ok (some .randoms) ∧
    set_source (some .data) "bogus" =
      .error (.invalidSource ["data", "randoms"]) ∧
    read (fun z => z) ⟨none, ⟨0, 0, 0⟩, fun _ => 0, false, none⟩
      ["Position"] [] = .error (.sourceNotSet ["data", "randoms"]) :=
  ⟨(C7_source_state_machine (some .randoms)).1,
   (C7_source_state_machine none).2.1,
   (C7_source_state_machine (some .data)).2.2.1 "bogus" (by decide) (by decide),
   (C7_source_state_machine none).2.2.2 (fun z => z)
     ⟨none, ⟨0, 0, 0⟩, fun _ => 0, false, none⟩ ["Position"] [] rfl⟩

/-- Claim C9 is a code bug; this theorem evaluates `nbar_fromfile` at the
failing inputs: for a path that exists with well-formed two-column content
the call raises `NameError` (the spline class was imported under the name
`spline`, so the referenced `InterpolatedUnivariateSpline` is unbound)
instead of returning the interpolating curve; for missing paths it raises
`ValueError` whose message is the unformatted literal — identical for every
filename, hence never naming the missing file. -/
theorem C9_nbar_fromfile_defect :
    nbar_fromfile
        (fun f => if f = "nbar.txt" then some [(0.1, 0.001), (0.2, 0.002)]
                  else none)
        "nbar.txt" = .error (.nameError "InterpolatedUnivariateSpline") ∧
    nbar_fromfile (fun _ => none) "missing_a.txt" =
      .error (.valueError "\x27%s\x27 file for reading nbar does not exist") ∧
    nbar_fromfile (fun _ => none) "missing_a.txt" =
      nbar_fromfile (fun _ => none) "missing_b.txt" :=
  ⟨rfl, rfl, rfl⟩

/-- Helper: a sum of nonnegative reals vanishes exactly when every term
vanishes. -/
theorem sum_nonneg_eq_zero_iff (l : List ℝ) (h : ∀ x ∈ l, 0 ≤ x) :
    l.sum = 0 ↔ ∀ x ∈ l, x = 0 := by
  induction l with
  | nil => simp
  | cons a t ih =>
    have ha : 0 ≤ a := h a (List.mem_cons_self a t)
    have ht : ∀ x ∈ t, 0 ≤ x := fun x hx => h x (List.mem_cons_of_mem a hx)
    rw [List.sum_cons, add_eq_zero_iff_of_nonneg ha (List.sum_nonneg ht),
      ih ht]
    simp

/-- Helper: the population standard deviation of a nonempty sample vanishes
exactly when every sample value equals the sample mean. -/
theorem npStd_eq_zero_iff (data : List ℝ) (hne : data ≠ []) :
    npStd data = 0 ↔ ∀ x ∈ data, x = data.sum / data.length := by
  have hn : (0 : ℝ) < data.length := by
    have := List.length_pos.mpr hne
    exact_mod_cast this
  have hterms : ∀ y ∈ data.map fun x => (x - data.sum / data.length) ^ 2,
      0 ≤ y := by
    intro y hy
    obtain ⟨x, _, rfl⟩ := List.mem_map.mp hy
    exact sq_nonneg _
  have hS : 0 ≤ (data.map fun x => (x - data.sum / data.length) ^ 2).sum :=
    List.sum_nonneg hterms
  rw [npStd, Real.sqrt_eq_zero (by positivity),
    div_eq_zero_iff]
  constructor
  · intro hcase x hx
    rcases hcase with hsum | hlen
    · have := (sum_nonneg_eq_zero_iff _ hterms).mp hsum
      have hx0 := this _ (List.mem_map.mpr ⟨x, hx, rfl⟩)
      have := sq_eq_zero_iff.mp hx0
      linarith [sub_eq_zero.mp this]
    · exact absurd hlen (by positivity)
  · intro hall
    left
    rw [sum_nonneg_eq_zero_iff _ hterms]
    intro y hy
    obtain ⟨x, hx, rfl⟩ := List.mem_map.mp hy
    rw [sub_eq_zero.mpr (hall x hx)]
    simp

/-- Claim C10 — on a nonempty sample, the Scott-rule bin width (which is the
divisor in the bin-count expression `ceil((max-min)/dx)` of `_set_nbar`)
vanishes exactly when the sample is constant (standard deviation zero): the
bin computation divides by zero precisely on constant samples, so it is
well-defined only under the implicit precondition of nonzero standard
deviation. -/
theorem C10_constant_sample_divides_by_zero (data : List ℝ) (hne : data ≠ []) :
    scottsDx data = 0 ↔ ∀ x ∈ data, ∀ y ∈ data, x = y := by
  have hn : (0 : ℝ) < data.length := by
    have := List.length_pos.mpr hne
    exact_mod_cast this
  have hpow : (0 : ℝ) < (data.length : ℝ) ^ ((1 : ℝ) / 3) :=
    Real.rpow_pos_of_pos hn _
  have hdx : scottsDx data = 0 ↔ npStd data = 0 := by
    rw [scottsDx, div_eq_zero_iff]
    constructor
    · rintro (h35 | hp)
      · rcases mul_eq_zero.mp h35 with h | h
        · norm_num at h
        · exact h
      · exact absurd hp (ne_of_gt hpow)
    · intro h
      left
      rw [h, mul_zero]
  rw [hdx, npStd_eq_zero_iff data hne]
  constructor
  · intro hall x hx y hy
    rw [hall x hx, hall y hy]
  · intro hpair x hx
    obtain ⟨a, t, rfl⟩ := List.exists_cons_of_ne_nil hne
    have hxa : x = a := hpair x hx a (List.mem_cons_self a t)
    have hsum : (a :: t).sum = (a :: t).length • a :=
      List.sum_eq_card_nsmul _ a fun y hy => hpair y hy a (List.mem_cons_self a t)
    rw [hxa, hsum, nsmul_eq_mul, mul_comm, mul_div_assoc, div_self, mul_one]
    exact ne_of_gt hn

/-- Witness for C10: the constant sample `[1, 1]` really does make the bin
width — the divisor of the bin-count expression — vanish. -/
theorem C10_constant_sample_divides_by_zero_witness :
    ([1, 1] : List ℝ) ≠ [] ∧
    (scottsDx [1, 1] = 0 ↔ ∀ x ∈ ([1, 1] : List ℝ), ∀ y ∈ ([1, 1] : List ℝ),
      x = y) :=
  ⟨by simp, C10_constant_sample_divides_by_zero [1, 1] (by simp)⟩

/-- Helper: counting a predicate over `range m` when its true set is the
initial segment `{0, ..., k-1}`. -/
theorem countP_range_of_initial (P : ℕ → Bool) (m k : ℕ) (hk : k ≤ m)
    (htrue : ∀ i < k, P i = true)
    (hfalse : ∀ i, k ≤ i → i < m → P i = false) :
    (List.range m).countP P = k := by
  induction m generalizing k with
  | zero =>
    simp only [List.range_zero, List.countP_nil]
    omega
  | succ m ih =>
    rw [List.range_succ, List.countP_append]
    by_cases hkm : k = m + 1
    · subst hkm
      have h1 : (List.range m).countP P = m :=
        ih m le_rfl (fun i hi => htrue i (by omega))
          (fun i hi him => absurd him (by omega))
      have h2 : P m = true := htrue m (Nat.lt_succ_self m)
      simp [h1, h2, List.countP_cons]
    · have hk' : k ≤ m := by omega
      have h1 := ih k hk' htrue (fun i hi him => hfalse i hi (by omega))
      have h2 : P m = false := hfalse m hk' (by omega)
      simp [h1, h2, List.countP_cons]

/-- Helper: the right-sided `searchsorted` against the uniformly increasing
edge grid `lmin + dx*i`, `i < m`, lands on `j+1` exactly for the values in
the half-open cell `[lmin + dx*j, lmin + dx*(j+1))` whenever that cell is
interior (`j+1 < m`). -/
theorem searchsorted_range_interval (lmin dx : ℝ) (hdx : 0 < dx) (m j : ℕ)
    (hj : j + 1 < m) (z : ℝ) :
    (searchsortedRight ((List.range m).map fun i : ℕ => lmin + dx * (i : ℝ)) z
        = j + 1)
      ↔ (lmin + dx * (j : ℝ) ≤ z ∧ z < lmin + dx * ((j + 1 : ℕ) : ℝ)) := by
  have hmono : ∀ a b : ℕ, a ≤ b → lmin + dx * a ≤ lmin + dx * b := by
    intro a b hab
    have hc : (a : ℝ) ≤ b := Nat.cast_le.mpr hab
    nlinarith
  have hcount : searchsortedRight
      ((List.range m).map fun i : ℕ => lmin + dx * (i : ℝ)) z
      = (List.range m).countP fun i : ℕ => decide (lmin + dx * (i : ℝ) ≤ z) := by
    rw [searchsortedRight, List.countP_map]
    rfl
  rw [hcount]
  constructor
  · intro h
    by_cases hall : ∀ i, i < m → (decide (lmin + dx * (i : ℕ) ≤ z)) = true
    · exfalso
      have hm := countP_range_of_initial _ m m le_rfl (fun i hi => hall i hi)
        (fun i hi him => absurd him (by omega))
      omega
    · push_neg at hall
      obtain ⟨i0, hi0m, hi0⟩ := hall
      have hQ : ∃ i, i < m ∧ (decide (lmin + dx * (i : ℕ) ≤ z)) = false :=
        ⟨i0, hi0m, by simpa using hi0⟩
      have hkspec := Nat.find_spec hQ
      have hkm : Nat.find hQ < m := hkspec.1
      have htrue : ∀ i < Nat.find hQ,
          (decide (lmin + dx * (i : ℕ) ≤ z)) = true := by
        intro i hik
        by_contra hcon
        have hQi : i < m ∧ (decide (lmin + dx * (i : ℕ) ≤ z)) = false :=
          ⟨by omega, by simpa using hcon⟩
        exact absurd (Nat.find_min' hQ hQi) (by omega)
      have hfalse : ∀ i, Nat.find hQ ≤ i → i < m →
          (decide (lmin + dx * (i : ℕ) ≤ z)) = false := by
        intro i hki him
        by_contra hcon
        have hi : (decide (lmin + dx * (i : ℕ) ≤ z)) = true := by
          simpa using hcon
        have hle : lmin + dx * (i : ℕ) ≤ z := of_decide_eq_true hi
        have hk_le : lmin + dx * ((Nat.find hQ : ℕ) : ℝ) ≤ z :=
          le_trans (hmono _ i hki) hle
        have := decide_eq_true hk_le
        rw [hkspec.2] at this
        exact Bool.false_ne_true this
      have hcnt := countP_range_of_initial _ m (Nat.find hQ)
        (le_of_lt hkm) htrue hfalse
      have hkj : Nat.find hQ = j + 1 := by omega
      constructor
      · exact of_decide_eq_true (htrue j (by omega))
      · have hf := hfalse (j + 1) (by omega) hj
        by_contra hcon
        push_neg at hcon
        rw [decide_eq_true hcon] at hf
        exact Bool.noConfusion hf
  · rintro ⟨h1, h2⟩
    apply countP_range_of_initial _ m (j + 1) (by omega)
    · intro i hi
      exact decide_eq_true (le_trans (hmono i j (by omega)) h1)
    · intro i hki him
      have hle : lmin + dx * ((j + 1 : ℕ) : ℝ) ≤ lmin + dx * (i : ℝ) :=
        hmono (j + 1) i hki
      exact decide_eq_false fun hcon => absurd h2 (not_lt.mpr (le_trans hle hcon))

/-- Helper: each edge of the Scott-rule grid is the sample minimum plus the
bin width times the edge index. -/
theorem scottsBins_getD (data : List ℝ) (j : ℕ)
    (hj : j ≤ (scottsNbins data).toNat) :
    (scottsBins data).getD j 0 = listMin data + scottsDx data * j := by
  rw [scottsBins, List.getD_eq_getElem?_getD, List.getElem?_map,
    List.getElem?_range (by omega)]
  rfl

/-- Helper: a nonempty sample with nonzero standard deviation has a strictly
positive Scott-rule bin width. -/
theorem scottsDx_pos (data : List ℝ) (hne : data ≠ []) (hsd : npStd data ≠ 0) :
    0 < scottsDx data := by
  have hσ0 : 0 ≤ npStd data := by
    rw [npStd]
    positivity
  have hσ : 0 < npStd data := lt_of_le_of_ne hσ0 (Ne.symm hsd)
  have hn : (0 : ℝ) < data.length := by
    have := List.length_pos.mpr hne
    exact_mod_cast this
  have hpow : (0 : ℝ) < (data.length : ℝ) ^ ((1 : ℝ) / 3) :=
    Real.rpow_pos_of_pos hn _
  rw [scottsDx]
  exact div_pos (mul_pos (by norm_num) hσ) hpow

/-- Claim C4 — for a nonempty, non-constant redshift sample with `fsky`
given and no precomputed nbar, the density estimator uses the Scott bin
width `dx = 3.5*sigma*n^(-1/3)`, a bin count `ceil((max-min)/dx)` clamped to
at least `1`, uniform edges starting at the sample minimum whose last edge
covers the sample maximum, a right-closed digitize whose interior bucket
`j` collects exactly the cell `[edge_j, edge_{j+1})` (the two tail buckets
outside the edge range being discarded), and produces exactly `Nbins` knots
whose value at each bin center is `alpha*count/volume` with
`volume = (4/3)*pi*(R_hi^3 - R_lo^3)*fsky` for the comoving distances of the
bin edges. -/
theorem C4_density_estimator (cfg : Config) (dist : ℝ → ℝ) (redshift : List ℝ)
    (alpha fsky : ℝ) (h1 : cfg.nbar = none) (h2 : cfg.fsky = some fsky)
    (hne : redshift ≠ []) (hsd : npStd redshift ≠ 0) :
    scottsDx redshift =
      3.5 * npStd redshift / (redshift.length : ℝ) ^ ((1 : ℝ) / 3) ∧
    scottsNbins redshift =
      max 1 ⌈(listMax redshift - listMin redshift) / scottsDx redshift⌉ ∧
    1 ≤ scottsNbins redshift ∧
    (∀ j ≤ (scottsNbins redshift).toNat,
      (scottsBins redshift).getD j 0 =
        listMin redshift + scottsDx redshift * j) ∧
    listMax redshift ≤
      (scottsBins redshift).getD (scottsNbins redshift).toNat 0 ∧
    (∀ j < (scottsNbins redshift).toNat, ∀ z : ℝ,
      searchsortedRight (scottsBins redshift) z = j + 1 ↔
        (scottsBins redshift).getD j 0 ≤ z ∧
          z < (scottsBins redshift).getD (j + 1) 0) ∧
    set_nbar cfg dist redshift alpha =
      .ok ((List.range (scottsNbins redshift).toNat).map fun j =>
        (0.5 * ((scottsBins redshift).getD j 0 +
                (scottsBins redshift).getD (j + 1) 0),
         alpha * (redshift.countP fun z =>
             decide (searchsortedRight (scottsBins redshift) z = j + 1)) /
           (4 / 3 * Real.pi *
             (dist ((scottsBins redshift).getD (j + 1) 0) ^ 3 -
              dist ((scottsBins redshift).getD j 0) ^ 3) * fsky))) ∧
    ∀ knots, set_nbar cfg dist redshift alpha = .ok knots →
      knots.length = (scottsNbins redshift).toNat := by
  have hdx := scottsDx_pos redshift hne hsd
  have hN1 : (1 : ℤ) ≤ scottsNbins redshift := le_max_left 1 _
  refine ⟨rfl, rfl, hN1, fun j hj => scottsBins_getD redshift j hj, ?_, ?_, ?_, ?_⟩
  · rw [scottsBins_getD redshift _ le_rfl]
    have hceil : (listMax redshift - listMin redshift) / scottsDx redshift ≤
        (⌈(listMax redshift - listMin redshift) / scottsDx redshift⌉ : ℝ) :=
      Int.le_ceil _
    have hNc : (⌈(listMax redshift - listMin redshift) / scottsDx redshift⌉ : ℤ)
        ≤ scottsNbins redshift := le_max_right 1 _
    have hcast : (((scottsNbins redshift).toNat : ℕ) : ℝ) =
        ((scottsNbins redshift : ℤ) : ℝ) := by
      have := Int.toNat_of_nonneg (le_trans zero_le_one hN1)
      exact_mod_cast congrArg (fun t : ℤ => (t : ℝ)) this
    rw [hcast]
    have hle : (listMax redshift - listMin redshift) / scottsDx redshift ≤
        ((scottsNbins redshift : ℤ) : ℝ) :=
      le_trans hceil (by exact_mod_cast hNc)
    have := (div_le_iff₀ hdx).mp hle
    linarith
  · intro j hj z
    rw [scottsBins_getD redshift j (by omega),
      scottsBins_getD redshift (j + 1) (by omega)]
    exact searchsorted_range_interval (listMin redshift) (scottsDx redshift)
      hdx ((scottsNbins redshift).toNat + 1) j (by omega) z
  · simp only [set_nbar, h1, h2]
  · intro knots hk
    simp only [set_nbar, h1, h2, Except.ok.injEq] at hk
    rw [← hk]
    simp

/-- Witness for C4: the sample `[0, 2]` (mean 1, variance 1) with
`fsky = 0.5`, no precomputed curve, identity distance function. -/
theorem C4_density_estimator_witness :
    ((⟨none, none, 0.02, false, none, none, some 0.5⟩ : Config).nbar = none ∧
     (⟨none, none, 0.02, false, none, none, some 0.5⟩ : Config).fsky =
       some 0.5 ∧
     ([0, 2] : List ℝ) ≠ [] ∧ npStd [0, 2] ≠ 0) ∧
    1 ≤ scottsNbins [0, 2] :=
  ⟨⟨rfl, rfl, by simp, by rw [npStd, Real.sqrt_ne_zero']; norm_num⟩,
   (C4_density_estimator ⟨none, none, 0.02, false, none, none, some 0.5⟩
      (fun z => z) [0, 2] 1 0.5 rfl rfl (by simp)
      (by rw [npStd, Real.sqrt_ne_zero']; norm_num)).2.2.1⟩

end TracerCatalog
